import Mathlib

/-!
Verification of the date-heuristics engine in `heuristic_date.py`.

The file shallowly embeds the whole `interpret` function: the tokenizer
(splitting a string into alternating digit / non-digit runs), the numeric
classifier (the ordered rule chain over digit runs), the month-name matcher
(catalogue of Danish/English month names with leftmost-match selection and
token splicing), and the final disambiguation / formatting stage.

Strings are modelled as `List Char`.  The process-wide current-year bound
(`YEAR_HIGH = time.localtime().tm_year` in the source) is an explicit
parameter `yearHigh` of every function that needs it.  The one genuinely
fallible operation in the source — reading `instr[0]` before any length
check — is modelled by `interpret` returning `Except Unit (Option (List
Char))`, with `Except.error ()` exactly on the empty input.  The Python
result `None` is `Option.none`; a returned date string is `some`.
-/

namespace HeuristicDate

/-- Constant `YEAR_LOW` from the source. -/
def YEAR_LOW : Nat := 1900

/-- Constant `Y2K_LOW` from the source. -/
def Y2K_LOW : Nat := 32

/-- Constant `Y2K_HIGH` from the source. -/
def Y2K_HIGH : Nat := 99

/-- Source predicate `is_year(x)`: `YEAR_LOW <= int(x) <= YEAR_HIGH`, with the process-wide
upper bound passed explicitly. -/
def is_year (yearHigh v : Nat) : Bool := decide (YEAR_LOW ≤ v ∧ v ≤ yearHigh)

/-- Source predicate `is_y2k(x)`: `Y2K_LOW <= int(x) <= Y2K_HIGH`. -/
def is_y2k (v : Nat) : Bool := decide (Y2K_LOW ≤ v ∧ v ≤ Y2K_HIGH)

/-- Source predicate `is_month(x)`: `1 <= int(x) <= 12`. -/
def is_month (v : Nat) : Bool := decide (1 ≤ v ∧ v ≤ 12)

/-- Source predicate `is_day(x)`: `1 <= int(x) <= 31`. -/
def is_day (v : Nat) : Bool := decide (1 ≤ v ∧ v ≤ 31)

/-- The `MONTHS` catalogue.  Each regex `'january|januar|jan'` is modelled as
the ordered list of its literal alternatives (all lower case, matched
case-insensitively), and the id string `"…m<k>"` by the month number `k`. -/
def MONTHS : List (List (List Char) × Nat) := [
  (["january".toList, "januar".toList, "jan".toList], 1),
  (["february".toList, "februar".toList, "feb".toList], 2),
  (["march".toList, "marts".toList, "mar".toList], 3),
  (["april".toList, "apr".toList], 4),
  (["maj".toList, "may".toList], 5),
  (["june".toList, "juni".toList, "jun".toList], 6),
  (["july".toList, "juli".toList, "jul".toList], 7),
  (["august".toList, "aug".toList], 8),
  (["september".toList, "sept".toList, "sep".toList], 9),
  (["october".toList, "oct".toList, "oktober".toList, "okt".toList], 10),
  (["november".toList, "nov".toList], 11),
  (["december".toList, "dec".toList], 12)]

/-- Python `int(x)` on a run of decimal digits. -/
def digitsToNat (x : List Char) : Nat :=
  x.foldl (fun a c => a * 10 + (c.toNat - 48)) 0

/-- Python `x.isdigit()`: nonempty and all characters decimal digits. -/
def isDigitRun (x : List Char) : Bool := !x.isEmpty && x.all Char.isDigit

/-- Decimal digit character for `n < 10`. -/
def digitChar (n : Nat) : Char := Char.ofNat (48 + n)

/-- Decimal representation of a natural number (structural fuel so that
concrete computations reduce in the kernel; `natChars` supplies enough). -/
def natCharsAux : Nat → Nat → List Char
  | 0, _ => []
  | fuel + 1, n =>
    if n < 10 then [digitChar n]
    else natCharsAux fuel (n / 10) ++ [digitChar (n % 10)]

/-- Decimal representation of a natural number, as printed by `%d`. -/
def natChars (n : Nat) : List Char := natCharsAux (n + 1) n

/-- Format `"%0<w>d" % n`: decimal representation left-padded with zeros to width
`w`. -/
def pad (w n : Nat) : List Char :=
  List.replicate (w - (natChars n).length) '0' ++ natChars n

/-- Format `"%04d" % y`. -/
def fmtY (y : Nat) : List Char := pad 4 y

/-- Format `"%04d-%02d" % (y, m)`. -/
def fmtYM (y m : Nat) : List Char := pad 4 y ++ '-' :: pad 2 m

/-- Format `"%04d-%02d-%02d" % (y, m, d)`. -/
def fmtYMD (y m d : Nat) : List Char := pad 4 y ++ '-' :: pad 2 m ++ '-' :: pad 2 d

/-- The tokenizer loop body: `l[-1][-1]` is always the character processed in
the previous iteration, carried here as `lastc`; `cur` is the run being
grown (`l[-1]`). -/
def tokenizeAux (cur : List Char) (lastc : Char) : List Char → List (List Char)
  | [] => [cur]
  | c :: cs =>
    if c.isDigit != lastc.isDigit then cur :: tokenizeAux [c] c cs
    else tokenizeAux (cur ++ [c]) c cs

/-- The tokenizer: `l = [instr[0]]` followed by the split loop over
`instr[1:]`.  The first character is taken explicitly, mirroring the
unguarded `instr[0]` of the source. -/
def tokenize (c : Char) (cs : List Char) : List (List Char) := tokenizeAux [c] c cs

/-- Concatenation of all tokens, Python `"".join(l)`. -/
def joinL : List (List Char) → List Char
  | [] => []
  | t :: ts => t ++ joinL ts

/-- Python `x.count(c)` for a single character `c`. -/
def countCh : List Char → Char → Nat
  | [], _ => 0
  | a :: l, c => (if a == c then 1 else 0) + countCh l c

/-- Python `list.insert(n, a)`: insert before position `n`, clamped to the length
(Python semantics). -/
def listInsert : List α → Nat → α → List α
  | l, 0, a => a :: l
  | [], _ + 1, a => [a]
  | b :: l, n + 1, a => b :: listInsert l n a

/-- Python `enumerate` starting at index `n`. -/
def enumFromL : Nat → List α → List (Nat × α)
  | _, [] => []
  | n, a :: l => (n, a) :: enumFromL (n + 1) l

/-- The mutable state of `interpret`: the token list `l` and the variables
`year`, `month`, `day`, `nbrs`. -/
structure CState where
  l : List (List Char)
  year : Option Nat := none
  month : Option Nat := none
  day : Option Nat := none
  nbrs : List Nat := []
deriving Repr, DecidableEq

/-- One iteration of the classifier loop (`for n, x in list(enumerate(l))`):
given the snapshot token `x` at snapshot index `n`, produce the new state and
whether the iteration executed `break`.  The rule chain is the source's, in
source order; note that the length-4 y2k+month rule stores the bare
two-digit value `int(x[:2])` in `year`, exactly as the source line
`year = int(x[:2])` does. -/
def classifyTok (yearHigh : Nat) (st : CState) (n : Nat) (x : List Char) :
    CState × Bool :=
  if isDigitRun x then
    if x.length = 8 ∧ is_year yearHigh (digitsToNat (x.take 4)) ∧
        is_month (digitsToNat ((x.drop 4).take 2)) ∧ is_day (digitsToNat (x.drop 6)) then
      ({ st with year := some (digitsToNat (x.take 4)),
                 month := some (digitsToNat ((x.drop 4).take 2)),
                 day := some (digitsToNat (x.drop 6)) }, true)
    else if x.length = 8 ∧ is_day (digitsToNat (x.take 2)) ∧
        is_month (digitsToNat ((x.drop 2).take 2)) ∧ is_year yearHigh (digitsToNat (x.drop 4)) then
      ({ st with year := some (digitsToNat (x.drop 4)),
                 month := some (digitsToNat ((x.drop 2).take 2)),
                 day := some (digitsToNat (x.take 2)) }, true)
    else if x.length = 6 ∧ is_year yearHigh (digitsToNat (x.take 4)) ∧
        is_month (digitsToNat (x.drop 4)) then
      ({ st with year := some (digitsToNat (x.take 4)),
                 month := some (digitsToNat (x.drop 4)),
                 day := none }, true)
    else if x.length = 6 ∧ is_y2k (digitsToNat (x.take 2)) ∧
        is_month (digitsToNat ((x.drop 2).take 2)) ∧ is_day (digitsToNat (x.drop 4)) then
      ({ st with year := some (digitsToNat (x.take 2) + 1900),
                 month := some (digitsToNat ((x.drop 2).take 2)),
                 day := some (digitsToNat (x.drop 4)) }, true)
    else if x.length = 6 ∧ is_day (digitsToNat (x.take 2)) ∧
        is_month (digitsToNat ((x.drop 2).take 2)) ∧ is_y2k (digitsToNat (x.drop 4)) then
      ({ st with year := some (digitsToNat (x.drop 4) + 1900),
                 month := some (digitsToNat ((x.drop 2).take 2)),
                 day := some (digitsToNat (x.take 2)) }, true)
    else if st.year = none ∧ x.length = 4 ∧ is_y2k (digitsToNat (x.take 2)) ∧
        is_month (digitsToNat (x.drop 2)) then
      ({ st with year := some (digitsToNat (x.take 2)),
                 month := some (digitsToNat (x.drop 2)),
                 day := none }, true)
    else if st.year = none ∧ x.length = 4 ∧ is_year yearHigh (digitsToNat x) then
      ({ st with l := st.l.set n ('…' :: 'y' :: x), year := some (digitsToNat x) }, false)
    else if st.year = none ∧ x.length = 2 ∧ is_y2k (digitsToNat x) then
      ({ st with l := st.l.set n ('…' :: 'y' :: '1' :: '9' :: x),
                 year := some (1900 + digitsToNat x) }, false)
    else if st.day = none ∧ x.length = 2 ∧ 12 < digitsToNat x ∧ is_day (digitsToNat x) then
      ({ st with l := st.l.set n ('…' :: 'd' :: x), day := some (digitsToNat x) }, false)
    else if x.length ≤ 2 ∧ digitsToNat x ≠ 0 then
      ({ st with l := st.l.set n ('…' :: 'n' :: x), nbrs := st.nbrs ++ [digitsToNat x] }, false)
    else (st, false)
  else (st, false)

/-- The classifier loop over the snapshot `list(enumerate(l))`, honouring
`break`. -/
def classifyFold (yearHigh : Nat) : List (Nat × List Char) → CState → CState
  | [], st => st
  | (n, x) :: rest, st =>
    match classifyTok yearHigh st n x with
    | (st1, true) => st1
    | (st1, false) => classifyFold yearHigh rest st1

/-- The whole classifier stage on a freshly tokenized list. -/
def classifyAll (yearHigh : Nat) (l : List (List Char)) : CState :=
  classifyFold yearHigh (enumFromL 0 l) { l := l }

/-- Does the alternative `a` (lower case) match the text at the front of
`sub`, case-insensitively? -/
def altMatch (a sub : List Char) : Bool := (sub.take a.length).map Char.toLower == a

/-- Model of `regex.search` for an alternation of literal alternatives: try each
position left to right and, at a position, each alternative in pattern
order; return the span `(start, end)` of the first hit. -/
def reSearchAux (alts : List (List Char)) : List Char → Nat → Option (Nat × Nat)
  | sub, pos =>
    match alts.find? (fun a => altMatch a sub) with
    | some a => some (pos, pos + a.length)
    | none =>
      match sub with
      | [] => none
      | _ :: rest => reSearchAux alts rest (pos + 1)

/-- Model of `regex.search(tok)` returning `match.span()`. -/
def reSearch (alts : List (List Char)) (tok : List Char) : Option (Nat × Nat) :=
  reSearchAux alts tok 0

/-- Python tuple comparison `span1 < span2` on `(start, end)` pairs. -/
def spanLt (p q : Nat × Nat) : Bool := p.1 < q.1 || (p.1 == q.1 && p.2 < q.2)

/-- The inner `for regex, mon_id in MONTHS` loop: keep the first match with
the strictly smallest span. -/
def bestMonthAux (tok : List Char) :
    List (List (List Char) × Nat) → Option (Nat × Nat × Nat) → Option (Nat × Nat × Nat)
  | [], best => best
  | (alts, mid) :: rest, best =>
    match reSearch alts tok, best with
    | none, _ => bestMonthAux tok rest best
    | some sp, none => bestMonthAux tok rest (some (mid, sp))
    | some sp, some (bmid, bsp) =>
      bestMonthAux tok rest (if spanLt sp bsp then some (mid, sp) else some (bmid, bsp))

/-- Best month match in one token: month number and span of the winning
match, or `none` if no catalogue entry matches. -/
def bestMonth (tok : List Char) : Option (Nat × Nat × Nat) :=
  bestMonthAux tok MONTHS none

/-- The placeholder token `"…m<k>"`. -/
def monthTag (mid : Nat) : List Char := '…' :: 'm' :: natChars mid

/-- The month-name `while` loop, with explicit fuel charged once per
execution of the loop condition.  A fuel of `l.length - n + 2` always
suffices (proved below); `none` is the out-of-fuel case. -/
def monthLoopF : Nat → List (List Char) → Nat → Option Nat →
    Option (List (List Char) × Option Nat)
  | 0, _, _, _ => none
  | fuel + 1, l, n, month =>
    if hlt : n < l.length then
      match month with
      | some m => some (l, some m)
      | none =>
        match bestMonth (l.get ⟨n, hlt⟩) with
        | none => monthLoopF fuel l (n + 1) none
        | some (mid, s, e) =>
          let x := l.get ⟨n, hlt⟩
          let l1 := l.eraseIdx n
          let p := if 0 < s then (listInsert l1 n (x.take s), n + 1) else (l1, n)
          let l3 := listInsert p.1 p.2 (monthTag mid)
          let n3 := p.2 + 1
          let l4 := if e < x.length then listInsert l3 n3 (x.drop e) else l3
          monthLoopF fuel l4 n3 (some mid)
    else some (l, month)

/-- The month-name stage as used by `interpret`: run the loop from index 0
with a sufficient fuel budget (the fallback is proved unreachable). -/
def runMonth (l : List (List Char)) (month : Option Nat) :
    List (List Char) × Option Nat :=
  (monthLoopF (l.length + 2) l 0 month).getD (l, month)

/-- Does the token start with the year tag `"…y"`?  (`l[-1][:2] == "…y"`.) -/
def yTag (t : List Char) : Bool := t.take 2 == ['…', 'y']

/-- Test `x.count('-') == 2 or x.count('.') == 2` — the `for sep in "-.":` loop
returns the same string for either separator, so it collapses to this
disjunction. -/
def sepTwo (x : List Char) : Bool := countCh x '-' == 2 || countCh x '.' == 2

/-- The final decision chain of `interpret`, from `if None not in (month,
day)` to the closing `return "%04d" % year`. -/
def disamb (year : Nat) (month day : Option Nat) (nbrs : List Nat)
    (l : List (List Char)) : List Char :=
  if month.isSome ∧ day.isSome then fmtYMD year (month.getD 0) (day.getD 0)
  else if month.isSome ∧ nbrs.length = 0 then fmtYM year (month.getD 0)
  else if month.isSome ∧ nbrs.length = 1 ∧ is_day (nbrs.getD 0 0) then
    fmtYMD year (month.getD 0) (nbrs.getD 0 0)
  else if day.isSome ∧ nbrs.length = 1 ∧ is_month (nbrs.getD 0 0) then
    fmtYMD year (nbrs.getD 0 0) (day.getD 0)
  else if month.isNone ∧ day.isNone ∧ nbrs.length = 1 ∧ is_month (nbrs.getD 0 0) then
    fmtYM year (nbrs.getD 0 0)
  else if nbrs.length = 2 ∧ yTag (l.getLastD []) ∧ is_day (nbrs.getD 0 0) ∧
      is_month (nbrs.getD 1 0) ∧ sepTwo (joinL l) then
    fmtYMD year (nbrs.getD 1 0) (nbrs.getD 0 0)
  else if nbrs.length = 2 ∧ yTag (l.headD []) ∧ is_day (nbrs.getD 1 0) ∧
      is_month (nbrs.getD 0 0) ∧ sepTwo (joinL l) then
    fmtYMD year (nbrs.getD 0 0) (nbrs.getD 1 0)
  else if month.isSome then fmtYM year (month.getD 0)
  else fmtY year

/-- Body of `interpret` on a nonempty input `c :: cs`: tokenize, classify, match
month names, then disambiguate; `none` iff no year was established. -/
def interpretCore (yearHigh : Nat) (c : Char) (cs : List Char) : Option (List Char) :=
  let st := classifyAll yearHigh (tokenize c cs)
  let lm := runMonth st.l st.month
  match st.year with
  | none => none
  | some y => some (disamb y lm.2 st.day st.nbrs lm.1)

/-- Entry point `interpret(instr)`.  `Except.error ()` models the `IndexError` raised by
the unguarded `instr[0]` on an empty input; otherwise the computation is
total and yields `Option (List Char)` exactly as the source yields
`None | str`. -/
def interpret (yearHigh : Nat) (instr : List Char) :
    Except Unit (Option (List Char)) :=
  match instr with
  | [] => Except.error ()
  | c :: cs => Except.ok (interpretCore yearHigh c cs)

instance : DecidableEq (Except Unit (Option (List Char))) := fun a b =>
  match a, b with
  | .error (), .error () => isTrue rfl
  | .ok x, .ok y =>
    if h : x = y then isTrue (by rw [h]) else isFalse (fun hc => by cases hc; exact h rfl)
  | .error _, .ok _ => isFalse (fun h => by cases h)
  | .ok _, .error _ => isFalse (fun h => by cases h)

/-! ## Theorems -/

/-- Claim C1.  The 4-digit y2k+month rule commits the **bare** two-digit
value as the year: the source line `year = int(x[:2])` lacks the `+ 1900`
offset its sibling rules have, so `"3201"` (yy = 32 ∈ [32,99], mm = 01 ∈
[1,12]) yields `"0032-01"`, a year outside [1900, current year], not
`"1932-01"`. -/
theorem C1_rule6_bare_year :
    interpret 2024 "3201".toList = Except.ok (some "0032-01".toList) := by decide

/-- Claim C2, counterexample.  The first digit run of `"1950 20230415"` sets
the year slot to 1950 (4-digit year tagging rule), yet the final output's
year is 2023: the later 8-digit full-match run overwrites the already-set
year, contradicting "year, once set, is never overwritten". -/
theorem C2_counterexample :
    (classifyTok 2024 { l := ["1950".toList, " ".toList, "20230415".toList] }
        0 "1950".toList).1.year = some 1950 ∧
    interpret 2024 "1950 20230415".toList =
      Except.ok (some "2023-04-15".toList) := by
  exact ⟨by decide, by decide⟩

/-- Claim C2, amended.  Once the year slot is set, any classifier step that
completes without `break` leaves it unchanged; only the full-match rules
(which `break` immediately, as in the counterexample) can replace an
already-set year. -/
theorem C2_year_preserved (yearHigh : Nat) (st : CState) (n : Nat)
    (x : List Char) (y : Nat) (hy : st.year = some y) :
    (classifyTok yearHigh st n x).2 = true ∨
      (classifyTok yearHigh st n x).1.year = some y := by
  rcases hres : classifyTok yearHigh st n x with ⟨st1, b⟩
  rw [classifyTok] at hres
  by_cases hd : isDigitRun x
  · rw [if_pos hd] at hres
    by_cases h1 : x.length = 8 ∧ is_year yearHigh (digitsToNat (x.take 4)) ∧
        is_month (digitsToNat ((x.drop 4).take 2)) ∧ is_day (digitsToNat (x.drop 6))
    · rw [if_pos h1] at hres; left; rw [← hres]
    · rw [if_neg h1] at hres
      by_cases h2 : x.length = 8 ∧ is_day (digitsToNat (x.take 2)) ∧
          is_month (digitsToNat ((x.drop 2).take 2)) ∧ is_year yearHigh (digitsToNat (x.drop 4))
      · rw [if_pos h2] at hres; left; rw [← hres]
      · rw [if_neg h2] at hres
        by_cases h3 : x.length = 6 ∧ is_year yearHigh (digitsToNat (x.take 4)) ∧
            is_month (digitsToNat (x.drop 4))
        · rw [if_pos h3] at hres; left; rw [← hres]
        · rw [if_neg h3] at hres
          by_cases h4 : x.length = 6 ∧ is_y2k (digitsToNat (x.take 2)) ∧
              is_month (digitsToNat ((x.drop 2).take 2)) ∧ is_day (digitsToNat (x.drop 4))
          · rw [if_pos h4] at hres; left; rw [← hres]
          · rw [if_neg h4] at hres
            by_cases h5 : x.length = 6 ∧ is_day (digitsToNat (x.take 2)) ∧
                is_month (digitsToNat ((x.drop 2).take 2)) ∧ is_y2k (digitsToNat (x.drop 4))
            · rw [if_pos h5] at hres; left; rw [← hres]
            · rw [if_neg h5] at hres
              rw [if_neg (fun h6 => by rw [hy] at h6; exact Option.noConfusion h6.1)] at hres
              rw [if_neg (fun h7 => by rw [hy] at h7; exact Option.noConfusion h7.1)] at hres
              rw [if_neg (fun h8 => by rw [hy] at h8; exact Option.noConfusion h8.1)] at hres
              by_cases h9 : st.day = none ∧ x.length = 2 ∧ 12 < digitsToNat x ∧
                  is_day (digitsToNat x)
              · rw [if_pos h9] at hres; right; rw [← hres]; exact hy
              · rw [if_neg h9] at hres
                by_cases h10 : x.length ≤ 2 ∧ digitsToNat x ≠ 0
                · rw [if_pos h10] at hres; right; rw [← hres]; exact hy
                · rw [if_neg h10] at hres; right; rw [← hres]; exact hy
  · rw [if_neg hd] at hres; right; rw [← hres]; exact hy

/-- Witness for `C2_year_preserved` at a concrete state and token. -/
theorem C2_year_preserved_witness :
    (classifyTok 2024 { l := ["07".toList], year := some 1950 } 0 "07".toList).2 = true ∨
      (classifyTok 2024 { l := ["07".toList], year := some 1950 } 0 "07".toList).1.year =
        some 1950 :=
  C2_year_preserved 2024 { l := ["07".toList], year := some 1950 } 0 "07".toList 1950 rfl

/-- Claim C3.  `interpret("12.11.1983")` = `"1983-11-12"`: two uncommitted
candidates 12 and 11, a year-last token list, and exactly two `.` characters
in the reconstructed text select the DMY reading. -/
theorem C3_dmy_example :
    interpret 2024 "12.11.1983".toList = Except.ok (some "1983-11-12".toList) := by
  decide

/-- Claim C7.  On the empty input the entry point fails (it reads `instr[0]`
with no length guard), and on every non-empty input `interpret` reaches no
error state: the tokenizer's first-character read is the only partial
operation, every other index taken by the embedding being structurally in
bounds. -/
theorem C7_nonempty_safe (yearHigh : Nat) :
    interpret yearHigh [] = Except.error () ∧
    ∀ instr : List Char, instr ≠ [] → ∃ r, interpret yearHigh instr = Except.ok r := by
  refine ⟨rfl, ?_⟩
  intro instr h
  match instr with
  | [] => exact absurd rfl h
  | c :: cs => exact ⟨interpretCore yearHigh c cs, rfl⟩

/-- Witness for `C7_nonempty_safe` at a concrete input. -/
theorem C7_nonempty_safe_witness :
    ∃ r, interpret 2024 "a".toList = Except.ok r :=
  (C7_nonempty_safe 2024).2 "a".toList (by decide)

/-- Claim C10, counterexample.  A 3-digit run sets no slot and is left
untagged, yet it still changes the final result: it occupies the last token
position, so the year-last check of the two-candidate rule fails and
`"12.11.1983 123"` degrades to `"1983"` while `"12.11.1983"` yields
`"1983-11-12"` — the run does contribute to the result. -/
theorem C10_counterexample :
    interpret 2024 "12.11.1983".toList = Except.ok (some "1983-11-12".toList) ∧
    interpret 2024 "12.11.1983 123".toList = Except.ok (some "1983".toList) := by
  exact ⟨by decide, by decide⟩

/-- Claim C10, amended.  A digit run of length 3, 5, 7 or ≥ 9, or of length
≤ 2 with numeric value 0, is inert in the classifier: the step leaves the
state (year, month, day, candidate list, token list) unchanged and does not
break — though the untouched token still occupies its position in the token
list, which the Disambiguator's first/last-token checks can observe. -/
theorem C10_ignored_runs (yearHigh : Nat) (st : CState) (n : Nat) (x : List Char)
    (hd : isDigitRun x = true)
    (hcase : x.length = 3 ∨ x.length = 5 ∨ x.length = 7 ∨ 9 ≤ x.length ∨
      (x.length ≤ 2 ∧ digitsToNat x = 0)) :
    classifyTok yearHigh st n x = (st, false) := by
  have hne8 : x.length ≠ 8 := by rcases hcase with h|h|h|h|⟨h, _⟩ <;> omega
  have hne6 : x.length ≠ 6 := by rcases hcase with h|h|h|h|⟨h, _⟩ <;> omega
  have hne4 : x.length ≠ 4 := by rcases hcase with h|h|h|h|⟨h, _⟩ <;> omega
  have hno8 : ¬(st.year = none ∧ x.length = 2 ∧ is_y2k (digitsToNat x) = true) := by
    rintro ⟨-, hl2, hy2k⟩
    rcases hcase with h|h|h|h|⟨h, hv⟩
    · omega
    · omega
    · omega
    · omega
    · rw [hv] at hy2k; exact absurd hy2k (by decide)
  have hno9 : ¬(st.day = none ∧ x.length = 2 ∧ 12 < digitsToNat x ∧
      is_day (digitsToNat x) = true) := by
    rintro ⟨-, hl2, hgt, -⟩
    rcases hcase with h|h|h|h|⟨h, hv⟩ <;> omega
  have hno10 : ¬(x.length ≤ 2 ∧ digitsToNat x ≠ 0) := by
    rintro ⟨hl2, hnz⟩
    rcases hcase with h|h|h|h|⟨h, hv⟩ <;> omega
  rw [classifyTok, if_pos hd]
  rw [if_neg (fun h => hne8 h.1)]
  rw [if_neg (fun h => hne8 h.1)]
  rw [if_neg (fun h => hne6 h.1)]
  rw [if_neg (fun h => hne6 h.1)]
  rw [if_neg (fun h => hne6 h.1)]
  rw [if_neg (fun h => hne4 h.2.1)]
  rw [if_neg (fun h => hne4 h.2.1)]
  rw [if_neg hno8]
  rw [if_neg hno9]
  rw [if_neg hno10]

/-- Witness for `C10_ignored_runs` at a concrete state and token. -/
theorem C10_ignored_runs_witness :
    classifyTok 2024 { l := [['1', '2', '3']] } 0 ['1', '2', '3'] =
      ({ l := [['1', '2', '3']] }, false) :=
  C10_ignored_runs 2024 { l := [['1', '2', '3']] } 0 ['1', '2', '3']
    (by decide) (Or.inl (by decide))

/-- Claim C9, counterexample.  Leading non-digit text does **not** prevent
the DMY reading: with a leading space the year-tagged token is still the
last element, so `" 12.11.1983"` still yields the full date `"1983-11-12"`
rather than degrading to `"1983"`. -/
theorem C9_counterexample :
    interpret 2024 " 12.11.1983".toList = Except.ok (some "1983-11-12".toList) := by
  decide

/-- Claim C9, amended.  The two-candidate rule fires only when the
year-tagged token is literally the last (DMY) or literally the first (YMD)
element: if neither end of the token list carries the `…y` tag the result
degrades to year-only.  Trailing text therefore kills the DMY reading
(`"12.11.1983 "` → `"1983"`), while leading text leaves it intact
(`" 12.11.1983"` → `"1983-11-12"`). -/
theorem C9_positional_tag :
    (∀ (y : Nat) (nbrs : List Nat) (l : List (List Char)),
      nbrs.length = 2 → yTag (l.getLastD []) = false → yTag (l.headD []) = false →
      disamb y none none nbrs l = fmtY y) ∧
    interpret 2024 "12.11.1983 ".toList = Except.ok (some "1983".toList) ∧
    interpret 2024 " 12.11.1983".toList = Except.ok (some "1983-11-12".toList) := by
  refine ⟨?_, by decide, by decide⟩
  intro y nbrs l hlen hlast hhead
  rw [disamb]
  rw [if_neg (fun h => by simp at h)]
  rw [if_neg (fun h => by simp at h)]
  rw [if_neg (fun h => by simp at h)]
  rw [if_neg (fun h => by simp at h)]
  rw [if_neg (fun h => by have := h.2.2.1; omega)]
  rw [if_neg (fun h => by rw [hlast] at h; simp at h)]
  rw [if_neg (fun h => by rw [hhead] at h; simp at h)]
  rw [if_neg (fun h => by simp at h)]

/-- Witness for the general part of `C9_positional_tag`. -/
theorem C9_positional_tag_witness :
    disamb 7 none none [3, 4] [['a']] = fmtY 7 :=
  C9_positional_tag.1 7 [3, 4] [['a']] (by decide) (by decide) (by decide)

/-- Every branch of the decision chain emits one of the three output
granularities, always formatted around the established year. -/
theorem disamb_shape (y : Nat) (month day : Option Nat) (nbrs : List Nat)
    (l : List (List Char)) :
    disamb y month day nbrs l = fmtY y ∨
      (∃ m, disamb y month day nbrs l = fmtYM y m) ∨
      ∃ m d, disamb y month day nbrs l = fmtYMD y m d := by
  rw [disamb]
  by_cases h1 : month.isSome = true ∧ day.isSome = true
  · rw [if_pos h1]; exact Or.inr (Or.inr ⟨_, _, rfl⟩)
  · rw [if_neg h1]
    by_cases h2 : month.isSome = true ∧ nbrs.length = 0
    · rw [if_pos h2]; exact Or.inr (Or.inl ⟨_, rfl⟩)
    · rw [if_neg h2]
      by_cases h3 : month.isSome = true ∧ nbrs.length = 1 ∧ is_day (nbrs.getD 0 0) = true
      · rw [if_pos h3]; exact Or.inr (Or.inr ⟨_, _, rfl⟩)
      · rw [if_neg h3]
        by_cases h4 : day.isSome = true ∧ nbrs.length = 1 ∧ is_month (nbrs.getD 0 0) = true
        · rw [if_pos h4]; exact Or.inr (Or.inr ⟨_, _, rfl⟩)
        · rw [if_neg h4]
          by_cases h5 : month.isNone = true ∧ day.isNone = true ∧ nbrs.length = 1 ∧
              is_month (nbrs.getD 0 0) = true
          · rw [if_pos h5]; exact Or.inr (Or.inl ⟨_, rfl⟩)
          · rw [if_neg h5]
            by_cases h6 : nbrs.length = 2 ∧ yTag (l.getLastD []) = true ∧
                is_day (nbrs.getD 0 0) = true ∧ is_month (nbrs.getD 1 0) = true ∧
                sepTwo (joinL l) = true
            · rw [if_pos h6]; exact Or.inr (Or.inr ⟨_, _, rfl⟩)
            · rw [if_neg h6]
              by_cases h7 : nbrs.length = 2 ∧ yTag (l.headD []) = true ∧
                  is_day (nbrs.getD 1 0) = true ∧ is_month (nbrs.getD 0 0) = true ∧
                  sepTwo (joinL l) = true
              · rw [if_pos h7]; exact Or.inr (Or.inr ⟨_, _, rfl⟩)
              · rw [if_neg h7]
                by_cases h8 : month.isSome = true
                · rw [if_pos h8]; exact Or.inr (Or.inl ⟨_, rfl⟩)
                · rw [if_neg h8]; exact Or.inl rfl

/-- The final stage of `interpretCore`, with the `let`s expanded. -/
theorem interpretCore_eq (yearHigh : Nat) (c : Char) (cs : List Char) :
    interpretCore yearHigh c cs =
      match (classifyAll yearHigh (tokenize c cs)).year with
      | none => none
      | some y => some (disamb y
          (runMonth (classifyAll yearHigh (tokenize c cs)).l
            (classifyAll yearHigh (tokenize c cs)).month).2
          (classifyAll yearHigh (tokenize c cs)).day
          (classifyAll yearHigh (tokenize c cs)).nbrs
          (runMonth (classifyAll yearHigh (tokenize c cs)).l
            (classifyAll yearHigh (tokenize c cs)).month).1) := rfl

/-- Claim C6.  On a non-empty input there are exactly two outcomes: the
no-result sentinel is returned iff the classifier established no year, and
otherwise the returned string is one of the three granularities (year-only,
year-month, year-month-day), built around the established year. -/
theorem C6_outcomes (yearHigh : Nat) (c : Char) (cs : List Char) :
    (interpret yearHigh (c :: cs) = Except.ok none ↔
      (classifyAll yearHigh (tokenize c cs)).year = none) ∧
    ∀ y : Nat, (classifyAll yearHigh (tokenize c cs)).year = some y →
      ∃ out, interpret yearHigh (c :: cs) = Except.ok (some out) ∧
        (out = fmtY y ∨ (∃ m, out = fmtYM y m) ∨ ∃ m d, out = fmtYMD y m d) := by
  constructor
  · constructor
    · intro h
      cases hy : (classifyAll yearHigh (tokenize c cs)).year with
      | none => rfl
      | some y =>
        exfalso
        have h2 : Except.ok (interpretCore yearHigh c cs) =
            (Except.ok none : Except Unit (Option (List Char))) := h
        injection h2 with h3
        rw [interpretCore_eq, hy] at h3
        exact Option.noConfusion h3
    · intro hy
      show Except.ok (interpretCore yearHigh c cs) = _
      rw [interpretCore_eq, hy]
  · intro y hy
    refine ⟨disamb y
      (runMonth (classifyAll yearHigh (tokenize c cs)).l
        (classifyAll yearHigh (tokenize c cs)).month).2
      (classifyAll yearHigh (tokenize c cs)).day
      (classifyAll yearHigh (tokenize c cs)).nbrs
      (runMonth (classifyAll yearHigh (tokenize c cs)).l
        (classifyAll yearHigh (tokenize c cs)).month).1, ?_, disamb_shape _ _ _ _ _⟩
    show Except.ok (interpretCore yearHigh c cs) = _
    rw [interpretCore_eq, hy]

/-- Witness for `C6_outcomes`: both directions at concrete inputs. -/
theorem C6_outcomes_witness :
    interpret 2024 ('x' :: "yz".toList) = Except.ok none ∧
    ∃ out, interpret 2024 ('1' :: "983".toList) = Except.ok (some out) ∧
      (out = fmtY 1983 ∨ (∃ m, out = fmtYM 1983 m) ∨ ∃ m d, out = fmtYMD 1983 m d) :=
  ⟨(C6_outcomes 2024 'x' "yz".toList).1.mpr (by decide),
   (C6_outcomes 2024 '1' "983".toList).2 1983 (by decide)⟩

/-- A nonempty run whose characters all agree with `b` on digit-ness has
`all Char.isDigit = b`. -/
theorem all_eq_of_forall_eq {cur : List Char} {b : Bool} (hne : cur ≠ [])
    (h : ∀ a ∈ cur, a.isDigit = b) : cur.all Char.isDigit = b := by
  cases b
  · cases cur with
    | nil => exact absurd rfl hne
    | cons a t => simp [List.all_cons, h a (List.mem_cons_self a t)]
  · rw [List.all_eq_true]
    exact fun a ha => h a ha

/-- Invariant of the tokenizer loop: concatenation is preserved, every
emitted run is nonempty and homogeneous, adjacent runs alternate, and the
first emitted run has the digit-ness of the run being grown. -/
theorem tokenizeAux_spec (rest : List Char) : ∀ (cur : List Char) (lastc : Char),
    cur ≠ [] → (∀ a ∈ cur, a.isDigit = lastc.isDigit) →
    joinL (tokenizeAux cur lastc rest) = cur ++ rest ∧
    (∀ t ∈ tokenizeAux cur lastc rest, t ≠ [] ∧
      ∀ a ∈ t, ∀ b ∈ t, a.isDigit = b.isDigit) ∧
    List.Chain' (fun a b => a.all Char.isDigit ≠ b.all Char.isDigit)
      (tokenizeAux cur lastc rest) ∧
    ∀ t ∈ (tokenizeAux cur lastc rest).head?, t.all Char.isDigit = lastc.isDigit := by
  induction rest with
  | nil =>
    intro cur lastc hne h
    refine ⟨by simp [tokenizeAux, joinL], ?_, by simp [tokenizeAux], ?_⟩
    · intro t ht
      simp only [tokenizeAux, List.mem_singleton] at ht
      subst ht
      exact ⟨hne, fun a ha b hb => (h a ha).trans (h b hb).symm⟩
    · intro t ht
      simp only [tokenizeAux, List.head?_cons, Option.mem_def, Option.some.injEq] at ht
      subst ht
      exact all_eq_of_forall_eq hne h
  | cons c cs ih =>
    intro cur lastc hne h
    by_cases hx : (c.isDigit != lastc.isDigit) = true
    · have hrw : tokenizeAux cur lastc (c :: cs) = cur :: tokenizeAux [c] c cs := by
        rw [tokenizeAux, if_pos hx]
      have IH := ih [c] c (by simp) (by simp)
      rw [hrw]
      refine ⟨?_, ?_, ?_, ?_⟩
      · show cur ++ joinL (tokenizeAux [c] c cs) = cur ++ (c :: cs)
        rw [IH.1]
        simp
      · intro t ht
        rcases List.mem_cons.mp ht with rfl | ht2
        · exact ⟨hne, fun a ha b hb => (h a ha).trans (h b hb).symm⟩
        · exact IH.2.1 t ht2
      · rw [List.chain'_cons']
        refine ⟨?_, IH.2.2.1⟩
        intro hdt hht
        rw [IH.2.2.2 hdt hht, all_eq_of_forall_eq hne h]
        exact fun he => (bne_iff_ne.mp hx) he.symm
      · intro t ht
        simp only [List.head?_cons, Option.mem_def, Option.some.injEq] at ht
        subst ht
        exact all_eq_of_forall_eq hne h
    · have hx2 : c.isDigit = lastc.isDigit := by
        simpa [bne_iff_ne] using hx
      have hrw : tokenizeAux cur lastc (c :: cs) = tokenizeAux (cur ++ [c]) c cs := by
        rw [tokenizeAux, if_neg hx]
      have hne2 : cur ++ [c] ≠ [] := by simp
      have hall2 : ∀ a ∈ cur ++ [c], a.isDigit = c.isDigit := by
        intro a ha
        rcases List.mem_append.mp ha with ha2 | ha2
        · rw [h a ha2, hx2]
        · rw [List.mem_singleton.mp ha2]
      have IH := ih (cur ++ [c]) c hne2 hall2
      rw [hrw]
      refine ⟨?_, IH.2.1, IH.2.2.1, ?_⟩
      · rw [IH.1, List.append_assoc, List.singleton_append]
      · intro t ht
        rw [IH.2.2.2 t ht, hx2]

/-- Claim C4.  The tokenizer splits a non-empty input into runs whose
concatenation reproduces the input exactly, each run being nonempty and
either all decimal digits or all non-digits, with adjacent runs never
sharing the same classification. -/
theorem C4_tokenizer (c : Char) (cs : List Char) :
    joinL (tokenize c cs) = c :: cs ∧
    (∀ t ∈ tokenize c cs, t ≠ [] ∧
      (t.all Char.isDigit = true ∨ t.all (fun a => !a.isDigit) = true)) ∧
    List.Chain' (fun a b => a.all Char.isDigit ≠ b.all Char.isDigit)
      (tokenize c cs) := by
  have h := tokenizeAux_spec cs [c] c (by simp) (by simp)
  refine ⟨by simpa [tokenize] using h.1, ?_, h.2.2.1⟩
  intro t ht
  obtain ⟨hne, hpair⟩ := h.2.1 t ht
  refine ⟨hne, ?_⟩
  cases t with
  | nil => exact absurd rfl hne
  | cons a tl =>
    cases hda : a.isDigit
    · right
      rw [List.all_eq_true]
      intro b hb
      have hb2 := hpair b hb a (List.mem_cons_self a tl)
      simp [hb2, hda]
    · left
      rw [List.all_eq_true]
      intro b hb
      have hb2 := hpair b hb a (List.mem_cons_self a tl)
      rw [hb2, hda]

/-- With the month already set, the loop exits at once (one condition check
of fuel). -/
theorem monthLoopF_some_month (f : Nat) (l : List (List Char)) (n m : Nat) :
    monthLoopF (f + 1) l n (some m) = some (l, some m) := by
  by_cases hlt : n < l.length
  · rw [monthLoopF, dif_pos hlt]
  · rw [monthLoopF, dif_neg hlt]

/-- A fuel of `l.length - n + 2` suffices for the month loop: every
iteration either advances the index past a token or sets the month, which
ends the loop. -/
theorem monthLoopF_enough : ∀ (k : Nat) (l : List (List Char)) (n : Nat)
    (mo : Option Nat), l.length - n + 2 ≤ k → (monthLoopF k l n mo).isSome = true := by
  intro k
  induction k with
  | zero => intro l n mo h; exact absurd h (by omega)
  | succ k ih =>
    intro l n mo h
    by_cases hlt : n < l.length
    · cases mo with
      | some m => rw [monthLoopF_some_month]; rfl
      | none =>
        rw [monthLoopF, dif_pos hlt]
        cases hbm : bestMonth (l.get ⟨n, hlt⟩) with
        | none => exact ih l (n + 1) none (by omega)
        | some r =>
          obtain ⟨mid, s, e⟩ := r
          obtain ⟨k2, rfl⟩ : ∃ k2, k = k2 + 1 := ⟨k - 1, by omega⟩
          simp only []
          rw [monthLoopF_some_month]
          rfl
    · rw [monthLoopF, dif_neg hlt]; rfl

/-- If no token from index `n` on matches any month name, the loop leaves
the token list untouched and the month unset. -/
theorem monthLoopF_none_all : ∀ (k : Nat) (l : List (List Char)) (n : Nat),
    l.length - n + 2 ≤ k →
    (∀ j tj, n ≤ j → l[j]? = some tj → bestMonth tj = none) →
    monthLoopF k l n none = some (l, none) := by
  intro k
  induction k with
  | zero => intro l n h _; exact absurd h (by omega)
  | succ k ih =>
    intro l n h hall
    by_cases hlt : n < l.length
    · rw [monthLoopF, dif_pos hlt]
      have hbm : bestMonth (l.get ⟨n, hlt⟩) = none :=
        hall n _ (le_refl n) (List.getElem?_eq_getElem hlt)
      rw [hbm]
      exact ih l (n + 1) (by omega) (fun j tj hj htj => hall j tj (by omega) htj)
    · rw [monthLoopF, dif_neg hlt]

/-- The loop stops at the first token with a month-name match and commits
that token's winning month id. -/
theorem monthLoopF_first_hit : ∀ (k : Nat) (l : List (List Char)) (n i : Nat)
    (t : List Char) (mid : Nat) (sp : Nat × Nat),
    l.length - n + 2 ≤ k → n ≤ i → l[i]? = some t →
    (∀ j tj, n ≤ j → j < i → l[j]? = some tj → bestMonth tj = none) →
    bestMonth t = some (mid, sp) →
    Option.map Prod.snd (monthLoopF k l n none) = some (some mid) := by
  intro k
  induction k with
  | zero => intro l n i t mid sp h _ _ _ _; exact absurd h (by omega)
  | succ k ih =>
    intro l n i t mid sp h hni hti hall hbm
    have hi : i < l.length := (List.getElem?_eq_some.mp hti).1
    have hlt : n < l.length := by omega
    rw [monthLoopF, dif_pos hlt]
    rcases Nat.eq_or_lt_of_le hni with rfl | hlt2
    · have ht : l.get ⟨n, hlt⟩ = t :=
        Option.some.inj ((List.getElem?_eq_getElem hlt).symm.trans hti)
      obtain ⟨s, e⟩ := sp
      rw [ht, hbm]
      obtain ⟨k2, rfl⟩ : ∃ k2, k = k2 + 1 := ⟨k - 1, by omega⟩
      simp only []
      rw [monthLoopF_some_month]
      rfl
    · have hbmn : bestMonth (l.get ⟨n, hlt⟩) = none :=
        hall n _ (le_refl n) hlt2 (List.getElem?_eq_getElem hlt)
      rw [hbmn]
      exact ih l (n + 1) i t mid sp (by omega) (by omega) hti
        (fun j tj hj1 hj2 htj => hall j tj (by omega) hj2 htj) hbm

/-- Claim C8.  The month-name loop, which pops and re-inserts tokens in the
list it iterates over, always makes progress: a fuel budget linear in the
list length never runs out, and in particular the budget `interpret` uses
through `runMonth` always yields a result, so `interpret` terminates on
every non-empty input. -/
theorem C8_month_loop_terminates :
    (∀ (l : List (List Char)) (n : Nat) (mo : Option Nat),
      (monthLoopF (l.length - n + 2) l n mo).isSome = true) ∧
    ∀ (l : List (List Char)) (mo : Option Nat),
      monthLoopF (l.length + 2) l 0 mo = some (runMonth l mo) := by
  constructor
  · intro l n mo
    exact monthLoopF_enough _ l n mo (le_refl _)
  · intro l mo
    have h := monthLoopF_enough (l.length + 2) l 0 mo (by omega)
    obtain ⟨r, hr⟩ := Option.isSome_iff_exists.mp h
    rw [hr, runMonth, hr]
    rfl


/-! ### Month-name matcher: search soundness and tie-break analysis -/

theorem reSearchAux_sound (alts : List (List Char)) : ∀ (sub : List Char) (pos s ee : Nat),
    reSearchAux alts sub pos = some (s, ee) →
    pos ≤ s ∧ ∃ a ∈ alts, altMatch a (sub.drop (s - pos)) = true ∧ ee = s + a.length := by
  intro sub
  induction sub with
  | nil =>
    intro pos s ee hr
    rw [reSearchAux] at hr
    cases hf : List.find? (fun a => altMatch a []) alts with
    | some a =>
      rw [hf] at hr
      have h2 := Option.some.inj hr
      rw [Prod.mk.injEq] at h2
      obtain ⟨rfl, rfl⟩ := h2
      refine ⟨le_refl _, a, List.mem_of_find?_eq_some hf, ?_, rfl⟩
      simpa using List.find?_some hf
    | none =>
      rw [hf] at hr
      simp at hr
  | cons c rest ih =>
    intro pos s ee hr
    rw [reSearchAux] at hr
    cases hf : List.find? (fun a => altMatch a (c :: rest)) alts with
    | some a =>
      rw [hf] at hr
      have h2 := Option.some.inj hr
      rw [Prod.mk.injEq] at h2
      obtain ⟨rfl, rfl⟩ := h2
      refine ⟨le_refl _, a, List.mem_of_find?_eq_some hf, ?_, rfl⟩
      simpa using List.find?_some hf
    | none =>
      rw [hf] at hr
      have hr2 : reSearchAux alts rest (pos + 1) = some (s, ee) := hr
      obtain ⟨hle, a, hmem, hmatch, hee⟩ := ih (pos + 1) s ee hr2
      refine ⟨by omega, a, hmem, ?_, hee⟩
      have hsp : s - pos = (s - (pos + 1)) + 1 := by omega
      rw [hsp, List.drop_succ_cons]
      exact hmatch

theorem reSearch_spec (alts : List (List Char)) (tok : List Char) (s ee : Nat)
    (h : reSearch alts tok = some (s, ee)) :
    ∃ a ∈ alts, altMatch a (tok.drop s) = true ∧ ee = s + a.length := by
  obtain ⟨-, a, hmem, hm, he⟩ := reSearchAux_sound alts tok 0 s ee h
  rw [Nat.sub_zero] at hm
  exact ⟨a, hmem, hm, he⟩

theorem altMatch_take (a b sub : List Char) (ha : altMatch a sub = true)
    (hb : altMatch b sub = true) (hlen : a.length ≤ b.length) :
    a = b.take a.length := by
  rw [altMatch, beq_iff_eq] at ha hb
  have calcres : b.take a.length = a := by
    calc b.take a.length
        = ((sub.take b.length).map Char.toLower).take a.length := by rw [hb]
      _ = ((sub.take b.length).take a.length).map Char.toLower := by rw [← List.map_take]
      _ = (sub.take a.length).map Char.toLower := by
            rw [List.take_take, Nat.min_eq_left hlen]
      _ = a := ha
  exact calcres.symm

/-- No alternative of one month entry is a prefix of an alternative of a
different month entry, over the whole catalogue. -/
theorem months_take_unique : ∀ p ∈ MONTHS, ∀ q ∈ MONTHS, ∀ a ∈ p.1, ∀ b ∈ q.1,
    (a = b.take a.length ∨ b = a.take b.length) → p.2 = q.2 := by decide

theorem spanLt_prop (p q : Nat × Nat) :
    spanLt p q = true ↔ (p.1 < q.1 ∨ (p.1 = q.1 ∧ p.2 < q.2)) := by
  obtain ⟨a, b⟩ := p
  obtain ⟨c, d⟩ := q
  simp [spanLt]

theorem spanLt_false_prop (p q : Nat × Nat) :
    spanLt p q = false ↔ ¬(p.1 < q.1 ∨ (p.1 = q.1 ∧ p.2 < q.2)) := by
  rw [← spanLt_prop]
  cases hsp : spanLt p q <;> simp

theorem spanLt_irrefl (p : Nat × Nat) : spanLt p p = false := by
  rw [spanLt_false_prop]; omega

theorem span_helper1 (p q r : Nat × Nat) (h1 : spanLt p r = false)
    (h2 : spanLt p q = true) : spanLt q r = false := by
  rw [spanLt_false_prop] at h1 ⊢
  rw [spanLt_prop] at h2
  omega

theorem span_helper2 (p q r : Nat × Nat) (h1 : spanLt p q = false)
    (h2 : spanLt q r = false) : spanLt p r = false := by
  rw [spanLt_false_prop] at h1 h2 ⊢
  omega




theorem bestMonthAux_sound (tok : List Char) : ∀ (cat : List (List (List Char) × Nat))
    (best : Option (Nat × Nat × Nat)) (r : Nat × Nat × Nat),
    bestMonthAux tok cat best = some r →
    best = some r ∨ ∃ alts, (alts, r.1) ∈ cat ∧ reSearch alts tok = some r.2 := by
  intro cat
  induction cat with
  | nil =>
    intro best r h
    rw [bestMonthAux] at h
    exact Or.inl h
  | cons hd rest ih =>
    obtain ⟨alts0, mid0⟩ := hd
    intro best r h
    cases hrs : reSearch alts0 tok with
    | none =>
      rw [bestMonthAux.eq_2 tok alts0 mid0 rest best hrs] at h
      rcases ih best r h with hb | ⟨alts, hmem, hsr⟩
      · exact Or.inl hb
      · exact Or.inr ⟨alts, List.mem_cons_of_mem _ hmem, hsr⟩
    | some sp0 =>
      cases best with
      | none =>
        rw [bestMonthAux.eq_3 tok alts0 mid0 rest sp0 hrs] at h
        rcases ih _ r h with hb | ⟨alts, hmem, hsr⟩
        · have h3 := Option.some.inj hb
          refine Or.inr ⟨alts0, ?_, ?_⟩
          · rw [← h3]; exact List.mem_cons_self _ _
          · rw [← h3]; exact hrs
        · exact Or.inr ⟨alts, List.mem_cons_of_mem _ hmem, hsr⟩
      | some b0 =>
        obtain ⟨bmid, bsp⟩ := b0
        rw [bestMonthAux.eq_4 tok alts0 mid0 rest sp0 bmid bsp hrs] at h
        by_cases hsl : spanLt sp0 bsp = true
        · rw [if_pos hsl] at h
          rcases ih _ r h with hb | ⟨alts, hmem, hsr⟩
          · have h3 := Option.some.inj hb
            refine Or.inr ⟨alts0, ?_, ?_⟩
            · rw [← h3]; exact List.mem_cons_self _ _
            · rw [← h3]; exact hrs
          · exact Or.inr ⟨alts, List.mem_cons_of_mem _ hmem, hsr⟩
        · rw [Bool.not_eq_true] at hsl
          rw [if_neg (ne_true_of_eq_false hsl)] at h
          rcases ih _ r h with hb | ⟨alts, hmem, hsr⟩
          · exact Or.inl hb
          · exact Or.inr ⟨alts, List.mem_cons_of_mem _ hmem, hsr⟩

theorem bestMonthAux_min (tok : List Char) : ∀ (cat : List (List (List Char) × Nat))
    (best : Option (Nat × Nat × Nat)) (r : Nat × Nat × Nat),
    bestMonthAux tok cat best = some r →
    (∀ b, best = some b → spanLt b.2 r.2 = false) ∧
    (∀ alts mid sp, (alts, mid) ∈ cat → reSearch alts tok = some sp →
      spanLt sp r.2 = false) := by
  intro cat
  induction cat with
  | nil =>
    intro best r h
    rw [bestMonthAux] at h
    constructor
    · intro b hb
      have h3 := Option.some.inj (h.symm.trans hb)
      rw [← h3]
      exact spanLt_irrefl _
    · intro alts mid sp hmem
      exact absurd hmem (List.not_mem_nil _)
  | cons hd rest ih =>
    obtain ⟨alts0, mid0⟩ := hd
    intro best r h
    cases hrs : reSearch alts0 tok with
    | none =>
      rw [bestMonthAux.eq_2 tok alts0 mid0 rest best hrs] at h
      obtain ⟨ihb, ihc⟩ := ih best r h
      refine ⟨ihb, ?_⟩
      intro alts mid sp hmem hsp
      rcases List.mem_cons.mp hmem with heq | hmem2
      · rw [Prod.mk.injEq] at heq
        rw [heq.1] at hsp
        rw [hrs] at hsp
        exact Option.noConfusion hsp
      · exact ihc alts mid sp hmem2 hsp
    | some sp0 =>
      cases best with
      | none =>
        rw [bestMonthAux.eq_3 tok alts0 mid0 rest sp0 hrs] at h
        obtain ⟨ihb, ihc⟩ := ih _ r h
        have h0 : spanLt sp0 r.2 = false := ihb (mid0, sp0) rfl
        refine ⟨fun b hb => Option.noConfusion hb, ?_⟩
        intro alts mid sp hmem hsp
        rcases List.mem_cons.mp hmem with heq | hmem2
        · rw [Prod.mk.injEq] at heq
          rw [heq.1] at hsp
          rw [hrs] at hsp
          rw [(Option.some.inj hsp).symm]
          exact h0
        · exact ihc alts mid sp hmem2 hsp
      | some b0 =>
        obtain ⟨bmid, bsp⟩ := b0
        rw [bestMonthAux.eq_4 tok alts0 mid0 rest sp0 bmid bsp hrs] at h
        by_cases hsl : spanLt sp0 bsp = true
        · rw [if_pos hsl] at h
          obtain ⟨ihb, ihc⟩ := ih _ r h
          have h0 : spanLt sp0 r.2 = false := ihb (mid0, sp0) rfl
          refine ⟨?_, ?_⟩
          · intro b hb
            rw [← Option.some.inj hb]
            exact span_helper1 sp0 bsp r.2 h0 hsl
          · intro alts mid sp hmem hsp
            rcases List.mem_cons.mp hmem with heq | hmem2
            · rw [Prod.mk.injEq] at heq
              rw [heq.1] at hsp
              rw [hrs] at hsp
              rw [(Option.some.inj hsp).symm]
              exact h0
            · exact ihc alts mid sp hmem2 hsp
        · rw [Bool.not_eq_true] at hsl
          rw [if_neg (ne_true_of_eq_false hsl)] at h
          obtain ⟨ihb, ihc⟩ := ih _ r h
          have hb0 : spanLt bsp r.2 = false := ihb (bmid, bsp) rfl
          refine ⟨fun b hb => by rw [← Option.some.inj hb]; exact hb0, ?_⟩
          intro alts mid sp hmem hsp
          rcases List.mem_cons.mp hmem with heq | hmem2
          · rw [Prod.mk.injEq] at heq
            rw [heq.1] at hsp
            rw [hrs] at hsp
            rw [(Option.some.inj hsp).symm]
            exact span_helper2 sp0 bsp r.2 hsl hb0
          · exact ihc alts mid sp hmem2 hsp

/-- Two different catalogue entries never match the same token at the same
start position: a match pins down the text at that position, and the
catalogue's alternatives are prefix-incompatible across months. -/
theorem months_no_same_start (alts1 : List (List Char)) (mid1 : Nat)
    (alts2 : List (List Char)) (mid2 : Nat) (tok : List Char) (s e1 e2 : Nat)
    (h1 : (alts1, mid1) ∈ MONTHS) (h2 : (alts2, mid2) ∈ MONTHS)
    (hs1 : reSearch alts1 tok = some (s, e1))
    (hs2 : reSearch alts2 tok = some (s, e2)) : mid1 = mid2 := by
  obtain ⟨a, hamem, ham, -⟩ := reSearch_spec alts1 tok s e1 hs1
  obtain ⟨b, hbmem, hbm, -⟩ := reSearch_spec alts2 tok s e2 hs2
  rcases Nat.le_total a.length b.length with hle | hle
  · exact months_take_unique (alts1, mid1) h1 (alts2, mid2) h2 a hamem b hbmem
      (Or.inl (altMatch_take a b _ ham hbm hle))
  · exact months_take_unique (alts1, mid1) h1 (alts2, mid2) h2 a hamem b hbmem
      (Or.inr (altMatch_take b a _ hbm ham hle))

/-- Claim C5.  The month-name matcher (i) runs only while the month is
unset, (ii) leaves everything untouched when no token matches, (iii) stops
at the first token with a match and commits exactly that token's winning
month, and (iv) within a token the winning catalogue entry is one that
actually matches, every other matching entry starts no earlier, and a
different entry even starts strictly later — so ties on start position
cannot arise between distinct entries, and the first-listed tie-break is
respected. -/
theorem C5_month_matcher :
    (∀ (l : List (List Char)) (m : Nat), runMonth l (some m) = (l, some m)) ∧
    (∀ l : List (List Char), (∀ t ∈ l, bestMonth t = none) →
      runMonth l none = (l, none)) ∧
    (∀ (l : List (List Char)) (i : Nat) (t : List Char) (mid : Nat) (sp : Nat × Nat),
      l[i]? = some t → (∀ j tj, j < i → l[j]? = some tj → bestMonth tj = none) →
      bestMonth t = some (mid, sp) → (runMonth l none).2 = some mid) ∧
    ∀ (tok : List Char) (mid s e : Nat), bestMonth tok = some (mid, s, e) →
      (∃ alts, (alts, mid) ∈ MONTHS ∧ reSearch alts tok = some (s, e)) ∧
      ∀ (alts2 : List (List Char)) (mid2 s2 e2 : Nat), (alts2, mid2) ∈ MONTHS →
        reSearch alts2 tok = some (s2, e2) → s ≤ s2 ∧ (mid2 ≠ mid → s < s2) := by
  refine ⟨?_, ?_, ?_, ?_⟩
  · intro l m
    rw [runMonth]
    have h2 : l.length + 2 = l.length + 1 + 1 := rfl
    rw [h2, monthLoopF_some_month]
    rfl
  · intro l hall
    have hfix : ∀ j tj, 0 ≤ j → l[j]? = some tj → bestMonth tj = none :=
      fun j tj _ htj => hall tj (List.getElem?_mem htj)
    have h := monthLoopF_none_all (l.length + 2) l 0 (by omega) hfix
    rw [runMonth, h]
    rfl
  · intro l i t mid sp hti hall hbm
    have h := monthLoopF_first_hit (l.length + 2) l 0 i t mid sp (by omega)
      (by omega) hti (fun j tj hj1 hj2 htj => hall j tj hj2 htj) hbm
    obtain ⟨r, hr, hr2⟩ := Option.map_eq_some'.mp h
    rw [runMonth, hr]
    exact hr2
  · intro tok mid s e hbm
    rcases bestMonthAux_sound tok MONTHS none (mid, s, e) hbm with hb | ⟨alts, hmem, hsr⟩
    · exact Option.noConfusion hb
    · have hmin := (bestMonthAux_min tok MONTHS none (mid, s, e) hbm).2
      refine ⟨⟨alts, hmem, hsr⟩, ?_⟩
      intro alts2 mid2 s2 e2 hmem2 hsr2
      have hf : spanLt (s2, e2) (s, e) = false := hmin alts2 mid2 (s2, e2) hmem2 hsr2
      have hf3 : ¬(s2 < s ∨ (s2 = s ∧ e2 < e)) := (spanLt_false_prop (s2, e2) (s, e)).mp hf
      constructor
      · omega
      · intro hne
        have hle : s ≤ s2 := by omega
        rcases Nat.eq_or_lt_of_le hle with heq | hlt
        · exfalso
          apply hne
          have hsr2b : reSearch alts2 tok = some (s, e2) := by rw [heq]; exact hsr2
          exact months_no_same_start alts2 mid2 alts mid tok s e2 e hmem2 hmem hsr2b hsr
        · exact hlt

/-- Witness for `C5_month_matcher`: all four conjuncts instantiated. -/
theorem C5_month_matcher_witness :
    runMonth [['x']] (some 5) = ([['x']], some 5) ∧
    runMonth [['q']] none = ([['q']], none) ∧
    (runMonth [['q'], "maj jan".toList] none).2 = some 5 ∧
    (0 ≤ 4 ∧ (1 ≠ 5 → 0 < 4)) := by
  refine ⟨C5_month_matcher.1 [['x']] 5, ?_, ?_, ?_⟩
  · apply C5_month_matcher.2.1
    intro t ht
    have ht2 : t = ['q'] := by simpa using ht
    rw [ht2]
    decide
  · refine C5_month_matcher.2.2.1 [['q'], "maj jan".toList] 1 ("maj jan".toList) 5 (0, 3)
      (by decide) ?_ (by decide)
    intro j tj hj htj
    have hj0 : j = 0 := by omega
    subst hj0
    have htj2 : tj = ['q'] := by simpa using htj.symm
    rw [htj2]
    decide
  · exact (C5_month_matcher.2.2.2 ("maj jan".toList) 5 0 3 (by decide)).2
      (["january".toList, "januar".toList, "jan".toList]) 1 4 7 (by decide) (by decide)

end HeuristicDate
